import Mathlib

/-!
Shallow embedding of `SiEPIC/core.py` (classes `Net`, `Pin`, `Component`)
from the SiEPIC-Tools repository, together with the host-geometry value
types it manipulates (points, paths, boxes, polygons, integer affine
transforms).  Machine integers of the host are modelled as `Int`
(database units); the transcendental float computations (`atan2`, `cos`,
`sin` from Python's `math` module) are modelled over `ℝ`.
-/

namespace SiEPIC

/-- A 2-D point in integer database units (host `pya.Point`). -/
structure Point where
  x : Int
  y : Int
deriving DecidableEq, Repr

instance : Add Point := ⟨fun p q => ⟨p.x + q.x, p.y + q.y⟩⟩
instance : Sub Point := ⟨fun p q => ⟨p.x - q.x, p.y - q.y⟩⟩

theorem Point.add_def (p q : Point) : p + q = ⟨p.x + q.x, p.y + q.y⟩ := rfl

theorem Point.sub_def (p q : Point) : p - q = ⟨p.x - q.x, p.y - q.y⟩ := rfl

/-- Nearest-integer rounding of `n / 2`, modelling the host's rounding in
`pya.Point.__mul__` with the scalar `0.5`. -/
def roundHalf (n : Int) : Int := (n + 1).fdiv 2

/-- The host expression `p * 0.5` on an integer point: each coordinate is
halved and rounded to the nearest integer. -/
def Point.mulHalf (p : Point) : Point := ⟨roundHalf p.x, roundHalf p.y⟩

/-- A path: a sequence of points plus a width, as in host `pya.Path`. -/
structure Path where
  points : List Point
  width : Int
deriving DecidableEq, Repr

/-- An axis-aligned rectangle (host `pya.Box`). -/
structure Box where
  x1 : Int
  y1 : Int
  x2 : Int
  y2 : Int
deriving DecidableEq, Repr

/-- Host `Box.center()`: midpoint of the two corners, rounded like `* 0.5`. -/
def Box.center (b : Box) : Point := Point.mulHalf ⟨b.x1 + b.x2, b.y1 + b.y2⟩

/-- A polygon of the host geometry library, kept opaque: the embedding only
uses its bounding box and its `center()` query, so those are its data. -/
structure Polygon where
  bbox : Box
  center : Point
deriving DecidableEq, Repr

/-- An integer affine transform (host `pya.Trans` / `pya.ICplxTrans` with
unit magnification): a linear part and a displacement, acting pointwise. -/
structure Trans where
  a : Int
  b : Int
  c : Int
  d : Int
  dx : Int
  dy : Int
deriving DecidableEq, Repr

/-- Pointwise action of a transform on a point. -/
def Trans.apply (t : Trans) (p : Point) : Point :=
  ⟨t.a * p.x + t.b * p.y + t.dx, t.c * p.x + t.d * p.y + t.dy⟩

/-- The identity transform. -/
def Trans.identity : Trans := ⟨1, 0, 0, 1, 0, 0⟩

theorem Trans.identity_apply (p : Point) : Trans.identity.apply p = p := by
  cases p with
  | mk x y => simp [Trans.apply, Trans.identity]

/-- Host `path.transformed(trans)`: the transform applied to every point. -/
def Path.transformed (p : Path) (t : Trans) : Path :=
  ⟨p.points.map t.apply, p.width⟩

/-- Floor-convention modulus on reals, the semantics of Python's `%` on
floats (result has the sign of the divisor). -/
noncomputable def fmod (x y : ℝ) : ℝ := x - y * ⌊x / y⌋

/-- Truncation toward zero, the semantics of Python's `int()` on a float. -/
noncomputable def truncz (x : ℝ) : ℤ := if 0 ≤ x then ⌊x⌋ else ⌈x⌉

/-- Modelled from the spec: `angle_vector` of `SiEPIC.utils` is not under
`src/`; per the spec it returns the direction angle of a vector in degrees
in `[0, 360)` via a two-argument arctangent over the vector components
(`atan2(u.y, u.x) / pi * 180 % 360`).  `atan2` is `Complex.arg`. -/
noncomputable def angle_vector (u : Point) : ℝ :=
  fmod (Complex.arg ⟨(u.x : ℝ), (u.y : ℝ)⟩ / Real.pi * 180) 360

/-- Pin types, from `SiEPIC._globals.PIN_TYPES`. -/
inductive PinType where
  | OPTICAL
  | ELECTRICAL
  | OPTICALIO
deriving DecidableEq, Repr

/-- Class `Net` of `core.py`: a data holder for a net index, a type, and an
optional back-reference list of member pins.  Following the spec's design
note, back-references are modelled as indexes into an owning collection. -/
structure Net where
  idx : Option Int
  type : Option PinType
  pins : Option (List Nat)
deriving DecidableEq, Repr

/-- Modelled from the spec: `NET_DISCONNECTED` of `SiEPIC._globals` is not
under `src/`; per the spec it is a process-wide "disconnected" sentinel
`Net`, the default binding for any pin not yet matched (a `Net()` with no
index, type or members). -/
def NET_DISCONNECTED : Net := ⟨none, none, none⟩

/-- The state of a `Pin` object of `core.py`.  `center` is optional because
the Python constructor leaves the attribute unset when no backing geometry
is supplied.  The back-reference to the owning component is an index. -/
structure Pin where
  path : Option Path
  center : Option Point
  rotation : ℝ
  box : Option Box
  type : Option PinType
  net : Net
  pin_name : Option String
  component : Option Nat

/-- `Pin.__init__` (core.py lines 80-101).  `none` models the `IndexError`
raised when a path with fewer than two points is supplied (`pts[1]`).
With a two-point path: `center = (pts[0]+pts[1])*0.5` and
`rotation = angle_vector(pts[1]-pts[0])`; otherwise `rotation = 0`.
A box and then a polygon, when present, each overwrite `center`.
Without an explicit net the pin is bound to `NET_DISCONNECTED`. -/
noncomputable def Pin.init (path : Option Path) (type : Option PinType)
    (box : Option Box) (polygon : Option Polygon)
    (component : Option Nat) (net : Option Net) (pin_name : Option String) :
    Option Pin :=
  match path with
  | some p =>
    match p.points with
    | p0 :: p1 :: _ =>
      let c0 : Option Point := some (Point.mulHalf (p0 + p1))
      let rot : ℝ := angle_vector (p1 - p0)
      let c1 : Option Point := match box with
        | some b => some b.center
        | none => c0
      let c2 : Option Point := match polygon with
        | some pg => some pg.center
        | none => c1
      some ⟨path, c2, rot, box, type, net.getD NET_DISCONNECTED,
            pin_name, component⟩
    | _ => none
  | none =>
    let c1 : Option Point := match box with
      | some b => some b.center
      | none => none
    let c2 : Option Point := match polygon with
      | some pg => some pg.center
      | none => c1
    some ⟨none, c2, 0, box, type, net.getD NET_DISCONNECTED,
          pin_name, component⟩

/-- `Pin.transform` (core.py lines 103-111): when the pin has a path, the
path is transformed, the center recomputed as `(pts[0]+pts[1])*0.5` and the
rotation as `angle_vector(pts[0]-pts[1])`; the (mutated) pin itself is
returned.  `none` models the `IndexError` on a path with < 2 points. -/
noncomputable def Pin.transform (pin : Pin) (trans : Trans) : Option Pin :=
  match pin.path with
  | some p =>
    let p' := p.transformed trans
    match p'.points with
    | p0 :: p1 :: _ =>
      some { pin with
        path := some p'
        center := some (Point.mulHalf (p0 + p1))
        rotation := angle_vector (p0 - p1) }
    | _ => none
  | none => some pin

/-- A technology configuration: the spec describes it as a keyed mapping
`technology_name -> {dbu, ...}`; only those two entries are consumed. -/
structure Tech where
  technology_name : String
  dbu : ℚ
deriving DecidableEq, Repr

/-- The process-wide state read by `has_model`: the active technology, the
by-name technology registry, and `INTC_ELEMENTS`, the compact-model
registry (a collection of fully-qualified identifiers). -/
structure Env where
  activeTech : Option Tech
  techs : List Tech
  INTC_ELEMENTS : List String
deriving DecidableEq, Repr

/-- Modelled from the spec: `get_technology` of `SiEPIC.utils` is not under
`src/`; it yields the process-wide current technology configuration, and
the spec states that availability queries treat a missing/unset technology
as "no model available" rather than an error, so the unset case is exposed
as `none` for the caller to absorb. -/
def get_technology (env : Env) : Option Tech := env.activeTech

/-- Modelled from the spec: `get_technology_by_name` of `SiEPIC.utils` is
not under `src/`; it resolves a technology name in the technology registry,
`none` when the data cannot be resolved. -/
def get_technology_by_name (env : Env) (name : String) : Option Tech :=
  env.techs.find? (fun t => t.technology_name == name)

/-- The cell a component points back to.  Pin discovery
(`cell.find_pins_component`, a class extension not under `src/`) is
modelled from the spec as yielding the cell's discovered pin list. -/
structure Cell where
  discoveredPins : List Pin

/-- Modelled from the spec: `cell.find_pins_component(component)` is not
under `src/`; per the spec it re-discovers and returns the component's pins
from the cell's geometry, without mutating the component. -/
def Cell.find_pins_component (cell : Cell) (_c : Unit) : List Pin :=
  cell.discoveredPins

/-- The state of a `Component` object of `core.py` (lines 142-157).  The
field `inst` renders the Python attribute `instance` (a reserved word in
Lean).  `Dcenter` is the center scaled to physical units by the active
technology's `dbu`. -/
structure Component where
  idx : Option Int
  component : Option String
  inst : Option String
  trans : Option Trans
  library : Option String
  pins : List Pin
  npins : Nat
  params : Option String
  polygon : Option Polygon
  center : Point
  cell : Option Cell
  basic_name : Option String
  Dcenter : ℚ × ℚ

/-- `Component.__init__` (core.py lines 142-157).  The constructor reads
`polygon.bbox().center()` unconditionally, so `polygon = none` models the
`AttributeError` raised on the default argument (`none` result).  `npins`
is set to `len(pins)`.  `dbu` stands for `get_technology()['dbu']`
(`SiEPIC.utils.get_technology` is not under `src/`), used only to scale
`Dcenter`.  The `epins` and `nets` arguments are accepted and ignored,
as in the source. -/
def Component.init (dbu : ℚ) (idx : Option Int)
    (component inst : Option String) (trans : Option Trans)
    (library : Option String) (params : Option String) (pins : List Pin)
    (_epins _nets : List Net) (polygon : Option Polygon)
    (cell : Option Cell) (basic_name : Option String) : Option Component :=
  match polygon with
  | none => none
  | some pg =>
    some { idx := idx, component := component, inst := inst, trans := trans,
           library := library, pins := pins, npins := pins.length,
           params := params, polygon := some pg, center := pg.bbox.center,
           cell := cell, basic_name := basic_name,
           Dcenter := ((pg.bbox.center.x : ℚ) * dbu,
                       (pg.bbox.center.y : ℚ) * dbu) }

/-- `Component.find_pins` (core.py lines 170-171): delegates to
`self.cell.find_pins_component(self)` and returns the discovered list;
`none` models the `AttributeError` when `cell` is `None`.  It does not
assign `self.pins`. -/
def Component.find_pins (c : Component) : Option (List Pin) :=
  c.cell.map (fun cl => cl.find_pins_component ())

/-- Modelled from the spec: the attach step of the documented
find-pins-then-assign workflow (the callers of `find_pins` are not under
`src/`).  The spec states the caller assigns the discovered pins and that
the invariant `pin count == length(pins)` always holds, so the assignment
keeps the pin count consistent with the assigned list. -/
def Component.attachPins (c : Component) (ps : List Pin) : Component :=
  { c with pins := ps, npins := ps.length }

/-- Python's `str.lower()`: every character lower-cased. -/
def strLower (s : String) : String := ⟨s.data.map Char.toLower⟩

/-- The fully-qualified compact-model identifier built by `has_model`
(core.py line 181): `"design kits::" + technology_name.lower() + "::" +
component_name.lower()`. -/
def intcModelKey (techName compName : String) : String :=
  "design kits::" ++ strLower techName ++ "::" ++ strLower compName

/-- `Component.has_model` (core.py lines 173-181): resolves the active
technology, re-resolves it by name, and tests membership of the qualified
identifier in `INTC_ELEMENTS`.  The two `some false` fallbacks embed the
spec-modelled behaviour of the missing `SiEPIC.utils` helpers (missing
technology/registry data is "no model available", never an error); the
`none` result models the `AttributeError` of `self.component.lower()` when
the component has no name. -/
def Component.has_model (env : Env) (c : Component) : Option Bool :=
  match get_technology env with
  | none => some false
  | some t =>
    match get_technology_by_name env t.technology_name with
    | none => some false
    | some t2 =>
      match c.component with
      | none => none
      | some name =>
        some (env.INTC_ELEMENTS.contains (intcModelKey t2.technology_name name))

/-- The shapes yielded by the host's recursive shape iterator, paired below
with the iterator transform `itrans` that maps them into the top cell. -/
inductive Shape where
  | path (p : Path)
  | polygon (p : Polygon)
  | box (b : Box)
  | text
deriving Repr

/-- The pin-path extension step of `Component.get_polygons` (core.py lines
201-205): from the path's points, `rotation = angle_vector(pts[0]-pts[1]) *
pi / 180`, and `pts[1]` is replaced by `pts[1] - Point(int(cos(rotation) *
1000), int(sin(rotation)*1000))`.  `none` models the `IndexError` on a
path with fewer than two points. -/
noncomputable def extendPinPath (p : Path) : Option Path :=
  match p.points with
  | p0 :: p1 :: rest =>
    let rotation : ℝ := angle_vector (p0 - p1) * Real.pi / 180
    some ⟨p0 ::
      (p1 - ⟨truncz (Real.cos rotation * 1000), truncz (Real.sin rotation * 1000)⟩)
      :: rest, p.width⟩
  | _ => none

/-- The `PinRec` loop of `Component.get_polygons` (core.py lines 195-206):
each path shape is mapped by its iterator transform and extended by
`extendPinPath`; the resulting paths are the ones inserted (as polygons)
into the result region.  Non-path shapes are skipped. -/
noncomputable def get_polygons_pin_paths :
    List (Shape × Trans) → Option (List Path)
  | [] => some []
  | (Shape.path p, t) :: rest =>
    match extendPinPath (p.transformed t) with
    | none => none
    | some p' =>
      match get_polygons_pin_paths rest with
      | none => none
      | some out => some (p' :: out)
  | _ :: rest => get_polygons_pin_paths rest

/-- The stub displacement the claim describes for `get_polygons`: the
integer-rounded (toward zero, Python `int()`) vector of length 1000
database units along the direction from the path's second point away from
its first point. -/
noncomputable def stubVector (q0 q1 : Point) : Point :=
  let n : ℝ := Real.sqrt (((q1.x - q0.x : ℤ) : ℝ) ^ 2 + ((q1.y - q0.y : ℤ) : ℝ) ^ 2)
  ⟨truncz (1000 * ((q1.x - q0.x : ℤ) : ℝ) / n),
   truncz (1000 * ((q1.y - q0.y : ℤ) : ℝ) / n)⟩

/-- The model-availability key the claim describes for `has_model`: the
lower-cased `library::component_name` of the component itself. -/
def claimedModelKey (c : Component) : String :=
  strLower ((c.library.getD "") ++ "::" ++ (c.component.getD ""))

/-! Helper lemmas about the angle and rounding functions. -/

theorem truncz_neg (x : ℝ) : truncz (-x) = - truncz x := by
  unfold truncz
  rcases lt_trichotomy x 0 with h | h | h
  · rw [if_pos (by linarith), if_neg (by linarith), Int.floor_neg]
  · subst h
    norm_num
  · rw [if_neg (by linarith), if_pos (by linarith), Int.ceil_neg]

theorem cos_fmod_deg (a : ℝ) :
    Real.cos (fmod (a / Real.pi * 180) 360 * Real.pi / 180) = Real.cos a := by
  have hπ : Real.pi ≠ 0 := Real.pi_ne_zero
  have h : fmod (a / Real.pi * 180) 360 * Real.pi / 180
      = a - (⌊a / Real.pi * 180 / 360⌋ : ℤ) * (2 * Real.pi) := by
    unfold fmod
    field_simp
    ring
  rw [h, Real.cos_sub_int_mul_two_pi]

theorem sin_fmod_deg (a : ℝ) :
    Real.sin (fmod (a / Real.pi * 180) 360 * Real.pi / 180) = Real.sin a := by
  have hπ : Real.pi ≠ 0 := Real.pi_ne_zero
  have h : fmod (a / Real.pi * 180) 360 * Real.pi / 180
      = a - (⌊a / Real.pi * 180 / 360⌋ : ℤ) * (2 * Real.pi) := by
    unfold fmod
    field_simp
    ring
  rw [h, Real.sin_sub_int_mul_two_pi]

theorem cos_angle_vector (u : Point) (hu : ¬(u.x = 0 ∧ u.y = 0)) :
    Real.cos (angle_vector u * Real.pi / 180)
      = (u.x : ℝ) / Real.sqrt ((u.x : ℝ) ^ 2 + (u.y : ℝ) ^ 2) := by
  have hz : (⟨(u.x : ℝ), (u.y : ℝ)⟩ : ℂ) ≠ 0 := by
    intro h
    apply hu
    have h1 : ((u.x : ℝ)) = 0 := congrArg Complex.re h
    have h2 : ((u.y : ℝ)) = 0 := congrArg Complex.im h
    exact ⟨by exact_mod_cast h1, by exact_mod_cast h2⟩
  unfold angle_vector
  rw [cos_fmod_deg, Complex.cos_arg hz, Complex.abs_apply, Complex.normSq_mk]
  rw [show ((u.x : ℝ) * (u.x : ℝ) + (u.y : ℝ) * (u.y : ℝ))
        = (u.x : ℝ) ^ 2 + (u.y : ℝ) ^ 2 by ring]

theorem sin_angle_vector (u : Point) :
    Real.sin (angle_vector u * Real.pi / 180)
      = (u.y : ℝ) / Real.sqrt ((u.x : ℝ) ^ 2 + (u.y : ℝ) ^ 2) := by
  unfold angle_vector
  rw [sin_fmod_deg, Complex.sin_arg, Complex.abs_apply, Complex.normSq_mk]
  rw [show ((u.x : ℝ) * (u.x : ℝ) + (u.y : ℝ) * (u.y : ℝ))
        = (u.x : ℝ) ^ 2 + (u.y : ℝ) ^ 2 by ring]

theorem angle_vector_east {x : Int} (hx : 0 < x) : angle_vector ⟨x, 0⟩ = 0 := by
  unfold angle_vector
  have h0 : (⟨((x : Int) : ℝ), ((0 : Int) : ℝ)⟩ : ℂ) = (((x : ℝ)) : ℂ) := by
    apply Complex.ext <;> simp
  rw [h0, Complex.arg_ofReal_of_nonneg (by exact_mod_cast hx.le)]
  unfold fmod
  norm_num

theorem angle_vector_west {x : Int} (hx : x < 0) : angle_vector ⟨x, 0⟩ = 180 := by
  unfold angle_vector
  have h0 : (⟨((x : Int) : ℝ), ((0 : Int) : ℝ)⟩ : ℂ) = (((x : ℝ)) : ℂ) := by
    apply Complex.ext <;> simp
  rw [h0, Complex.arg_ofReal_of_neg (by exact_mod_cast hx)]
  have hπ : Real.pi ≠ 0 := Real.pi_ne_zero
  unfold fmod
  rw [div_self hπ, one_mul]
  have hfloor : ⌊(180 : ℝ) / 360⌋ = 0 := by
    rw [show ((180 : ℝ) / 360) = 1 / 2 by norm_num]
    norm_num
  rw [hfloor]
  norm_num

/-- Reduction of `Pin.__init__` on a two-point path with no other backing
geometry. -/
theorem Pin.init_path_only (p0 p1 : Point) (w : Int) (ty : Option PinType)
    (comp : Option Nat) (net : Option Net) (nm : Option String) :
    Pin.init (some ⟨[p0, p1], w⟩) ty none none comp net nm
      = some ⟨some ⟨[p0, p1], w⟩, some (Point.mulHalf (p0 + p1)),
              angle_vector (p1 - p0), none, ty, net.getD NET_DISCONNECTED,
              nm, comp⟩ := rfl

/-- Projection of `Pin.__init__`: whatever the backing geometry, the net
field is the supplied net, defaulting to the disconnected sentinel. -/
theorem Pin.init_net (path : Option Path) (ty : Option PinType)
    (bx : Option Box) (pg : Option Polygon) (comp : Option Nat)
    (net : Option Net) (nm : Option String) (pin : Pin)
    (h : Pin.init path ty bx pg comp net nm = some pin) :
    pin.net = net.getD NET_DISCONNECTED := by
  rcases path with _ | ⟨pts, w⟩
  · obtain rfl := Option.some.inj h
    rfl
  · rcases pts with _ | ⟨a, pts⟩
    · exact Option.noConfusion h
    · rcases pts with _ | ⟨a2, rest⟩
      · exact Option.noConfusion h
      · obtain rfl := Option.some.inj h
        rfl

/-- C1: a Pin constructed with a two-point optical path as its backing
geometry has `center = (pts[0]+pts[1])*0.5`, and any pin whose backing
path starts with points `a, b` gets, after `transform(T)`, the center
`(T a + T b) * 0.5` recomputed from the transformed path — so the midpoint
equation holds at construction and after any call to `transform`. -/
theorem pin_center_is_path_midpoint
    (p0 p1 : Point) (w : Int) (ty : Option PinType) (comp : Option Nat)
    (net : Option Net) (nm : Option String) (pin : Pin)
    (h : Pin.init (some ⟨[p0, p1], w⟩) ty none none comp net nm = some pin) :
    pin.center = some (Point.mulHalf (p0 + p1)) ∧
    ∀ (q : Pin) (a b : Point) (rest : List Point) (w' : Int) (t : Trans)
      (q' : Pin), q.path = some ⟨a :: b :: rest, w'⟩ →
      q.transform t = some q' →
      q'.center = some (Point.mulHalf (t.apply a + t.apply b)) := by
  constructor
  · rw [Pin.init_path_only] at h
    obtain rfl := Option.some.inj h
    rfl
  · intro q a b rest w' t q' hq hq'
    have ht : q.transform t = some { q with
        path := some ⟨t.apply a :: t.apply b :: rest.map t.apply, w'⟩,
        center := some (Point.mulHalf (t.apply a + t.apply b)),
        rotation := angle_vector (t.apply a - t.apply b) } := by
      simp [Pin.transform, hq, Path.transformed]
    rw [ht] at hq'
    obtain rfl := Option.some.inj hq'
    rfl

noncomputable def pinC1 : Pin :=
  ⟨some ⟨[⟨0, 0⟩, ⟨2, 0⟩], 500⟩, some (Point.mulHalf (⟨0, 0⟩ + ⟨2, 0⟩)),
   angle_vector ((⟨2, 0⟩ : Point) - ⟨0, 0⟩), none, none, NET_DISCONNECTED,
   none, none⟩

/-- Witness for `pin_center_is_path_midpoint` at a concrete optical pin. -/
theorem pin_center_is_path_midpoint_witness :
    Pin.init (some ⟨[⟨0, 0⟩, ⟨2, 0⟩], 500⟩) none none none none none none
      = some pinC1 ∧
    pinC1.center = some (Point.mulHalf (⟨0, 0⟩ + ⟨2, 0⟩)) :=
  ⟨rfl,
   (pin_center_is_path_midpoint ⟨0, 0⟩ ⟨2, 0⟩ 500 none none none none pinC1
      rfl).1⟩

def pathC2 : Path := ⟨[⟨0, 0⟩, ⟨1000, 0⟩], 500⟩

/-- C2 counterexample: the pin built on the optical path (0,0)-(1000,0) has
rotation 0 at construction, but after `transform` with the identity
transform its rotation is 180: `transform` recomputes the rotation from the
reversed vector `pts[0]-pts[1]` while the constructor uses
`pts[1]-pts[0]`, so the identity transform does not leave the rotation
unchanged. -/
theorem pin_transform_identity_flips_rotation :
    (Pin.init (some pathC2) none none none none none none).map Pin.rotation
      = some 0 ∧
    ((Pin.init (some pathC2) none none none none none none).bind
        (fun p => p.transform Trans.identity)).map Pin.rotation
      = some 180 ∧
    (0 : ℝ) ≠ 180 := by
  have e1 : ((⟨1000, 0⟩ : Point) - ⟨0, 0⟩) = ⟨1000, 0⟩ := by decide
  have e2 : ((⟨0, 0⟩ : Point) - ⟨1000, 0⟩) = ⟨-1000, 0⟩ := by decide
  have h1 : Pin.init (some pathC2) none none none none none none
      = some ⟨some pathC2, some (Point.mulHalf (⟨0, 0⟩ + ⟨1000, 0⟩)),
              angle_vector ((⟨1000, 0⟩ : Point) - ⟨0, 0⟩), none, none,
              NET_DISCONNECTED, none, none⟩ := rfl
  have happ0 : Trans.identity.apply ⟨0, 0⟩ = (⟨0, 0⟩ : Point) := by decide
  have happ1 : Trans.identity.apply ⟨1000, 0⟩ = (⟨1000, 0⟩ : Point) := by decide
  refine ⟨?_, ?_, by norm_num⟩
  · rw [h1, Option.map_some']
    rw [show (⟨some pathC2, some (Point.mulHalf (⟨0, 0⟩ + ⟨1000, 0⟩)),
        angle_vector ((⟨1000, 0⟩ : Point) - ⟨0, 0⟩), none, none,
        NET_DISCONNECTED, none, none⟩ : Pin).rotation
      = angle_vector ((⟨1000, 0⟩ : Point) - ⟨0, 0⟩) from rfl, e1]
    rw [angle_vector_east (by norm_num)]
  · rw [h1, Option.some_bind]
    have h2 : Pin.transform ⟨some pathC2,
        some (Point.mulHalf (⟨0, 0⟩ + ⟨1000, 0⟩)),
        angle_vector ((⟨1000, 0⟩ : Point) - ⟨0, 0⟩), none, none,
        NET_DISCONNECTED, none, none⟩ Trans.identity
        = some ⟨some ⟨[⟨0, 0⟩, ⟨1000, 0⟩], 500⟩,
            some (Point.mulHalf (⟨0, 0⟩ + ⟨1000, 0⟩)),
            angle_vector ((⟨0, 0⟩ : Point) - ⟨1000, 0⟩), none, none,
            NET_DISCONNECTED, none, none⟩ := by
      simp [Pin.transform, pathC2, Path.transformed, happ0, happ1]
    rw [h2, Option.map_some']
    rw [show (⟨some ⟨[⟨0, 0⟩, ⟨1000, 0⟩], 500⟩,
        some (Point.mulHalf (⟨0, 0⟩ + ⟨1000, 0⟩)),
        angle_vector ((⟨0, 0⟩ : Point) - ⟨1000, 0⟩), none, none,
        NET_DISCONNECTED, none, none⟩ : Pin).rotation
      = angle_vector ((⟨0, 0⟩ : Point) - ⟨1000, 0⟩) from rfl, e2]
    rw [angle_vector_west (by norm_num)]

/-- C2 amended: `transform(identity)` on a pin built from a two-point
optical path leaves the center and the path unchanged, but the rotation is
recomputed from the reversed vector `pts[0]-pts[1]` (the constructor used
`pts[1]-pts[0]`), so it generally changes by 180 degrees; a second
`transform(identity)` then changes nothing. -/
theorem pin_transform_identity_preserves_center
    (p0 p1 : Point) (w : Int) (ty : Option PinType) (comp : Option Nat)
    (net : Option Net) (nm : Option String) (pin pin' : Pin)
    (h : Pin.init (some ⟨[p0, p1], w⟩) ty none none comp net nm = some pin)
    (h' : pin.transform Trans.identity = some pin') :
    pin'.center = pin.center ∧ pin'.path = pin.path ∧
    pin.rotation = angle_vector (p1 - p0) ∧
    pin'.rotation = angle_vector (p0 - p1) ∧
    pin'.transform Trans.identity = some pin' := by
  rw [Pin.init_path_only] at h
  obtain rfl := Option.some.inj h
  have htr : (⟨[p0, p1], w⟩ : Path).transformed Trans.identity
      = ⟨[p0, p1], w⟩ := by
    simp [Path.transformed, Trans.identity_apply]
  have h2 : Pin.transform ⟨some ⟨[p0, p1], w⟩, some (Point.mulHalf (p0 + p1)),
      angle_vector (p1 - p0), none, ty, net.getD NET_DISCONNECTED, nm, comp⟩
      Trans.identity
      = some ⟨some ⟨[p0, p1], w⟩, some (Point.mulHalf (p0 + p1)),
          angle_vector (p0 - p1), none, ty, net.getD NET_DISCONNECTED, nm,
          comp⟩ := by
    simp [Pin.transform, htr]
  rw [h2] at h'
  obtain rfl := Option.some.inj h'
  refine ⟨rfl, rfl, rfl, rfl, ?_⟩
  simp [Pin.transform, htr]

noncomputable def pinC2a : Pin :=
  ⟨some pathC2, some (Point.mulHalf (⟨0, 0⟩ + ⟨1000, 0⟩)),
   angle_vector ((⟨1000, 0⟩ : Point) - ⟨0, 0⟩), none, none, NET_DISCONNECTED,
   none, none⟩

noncomputable def pinC2b : Pin :=
  ⟨some pathC2, some (Point.mulHalf (⟨0, 0⟩ + ⟨1000, 0⟩)),
   angle_vector ((⟨0, 0⟩ : Point) - ⟨1000, 0⟩), none, none, NET_DISCONNECTED,
   none, none⟩

/-- Witness for `pin_transform_identity_preserves_center` at a concrete
optical pin. -/
theorem pin_transform_identity_preserves_center_witness :
    (Pin.init (some pathC2) none none none none none none = some pinC2a) ∧
    (pinC2a.transform Trans.identity = some pinC2b) ∧
    (pinC2b.center = pinC2a.center ∧ pinC2b.path = pinC2a.path ∧
     pinC2a.rotation = angle_vector ((⟨1000, 0⟩ : Point) - ⟨0, 0⟩) ∧
     pinC2b.rotation = angle_vector ((⟨0, 0⟩ : Point) - ⟨1000, 0⟩) ∧
     pinC2b.transform Trans.identity = some pinC2b) := by
  have h1 : Pin.init (some pathC2) none none none none none none
      = some pinC2a := rfl
  have h2 : pinC2a.transform Trans.identity = some pinC2b := by
    have happ0 : Trans.identity.apply ⟨0, 0⟩ = (⟨0, 0⟩ : Point) := by decide
    have happ1 : Trans.identity.apply ⟨1000, 0⟩ = (⟨1000, 0⟩ : Point) := by
      decide
    simp [pinC2a, pinC2b, Pin.transform, pathC2, Path.transformed, happ0,
      happ1]
  exact ⟨h1, h2,
    pin_transform_identity_preserves_center ⟨0, 0⟩ ⟨1000, 0⟩ 500
      none none none none pinC2a pinC2b h1 h2⟩

/-- C6: for a pin without a backing path (electrical box, polygon, or no
geometry), `transform` leaves every field of its state — box, center,
rotation, type, net, pin name — unchanged, and returns that same pin. -/
theorem pin_transform_noop_without_path (pin : Pin) (t : Trans)
    (h : pin.path = none) : pin.transform t = some pin := by
  simp [Pin.transform, h]

def pinC6 : Pin :=
  ⟨none, some (Box.center ⟨0, 0, 2, 2⟩), 0, some ⟨0, 0, 2, 2⟩,
   some PinType.ELECTRICAL, NET_DISCONNECTED, some "elec1", none⟩

/-- Witness for `pin_transform_noop_without_path`. -/
theorem pin_transform_noop_without_path_witness :
    pinC6.path = none ∧ pinC6.transform Trans.identity = some pinC6 :=
  ⟨rfl, pin_transform_noop_without_path pinC6 Trans.identity rfl⟩

/-- C7: when both a box and a polygon are supplied to `Pin.__init__`, the
polygon's center is assigned last and wins. -/
theorem pin_center_polygon_overrides_box
    (path : Option Path) (ty : Option PinType) (bx : Box) (pg : Polygon)
    (comp : Option Nat) (net : Option Net) (nm : Option String) (pin : Pin)
    (h : Pin.init path ty (some bx) (some pg) comp net nm = some pin) :
    pin.center = some pg.center := by
  rcases path with _ | ⟨pts, w⟩
  · obtain rfl := Option.some.inj h
    rfl
  · rcases pts with _ | ⟨a, pts⟩
    · exact Option.noConfusion h
    · rcases pts with _ | ⟨a2, rest⟩
      · exact Option.noConfusion h
      · obtain rfl := Option.some.inj h
        rfl

def pgC7 : Polygon := ⟨⟨0, 0, 4, 4⟩, ⟨7, 8⟩⟩

def pinC7 : Pin :=
  ⟨none, some pgC7.center, 0, some ⟨0, 0, 2, 2⟩, none, NET_DISCONNECTED,
   none, none⟩

/-- Witness for `pin_center_polygon_overrides_box`: the polygon center
(7,8) wins over the box center (1,1). -/
theorem pin_center_polygon_overrides_box_witness :
    Pin.init none none (some ⟨0, 0, 2, 2⟩) (some pgC7) none none none
      = some pinC7 ∧
    pinC7.center = some pgC7.center :=
  ⟨rfl,
   pin_center_polygon_overrides_box none none ⟨0, 0, 2, 2⟩ pgC7 none none
     none pinC7 rfl⟩

/-- C9: a pin constructed without an explicit net is bound to the
disconnected sentinel `NET_DISCONNECTED`; with an explicit net argument,
that net is bound instead. -/
theorem pin_net_defaults_to_disconnected
    (path : Option Path) (ty : Option PinType) (bx : Option Box)
    (pg : Option Polygon) (comp : Option Nat) (nm : Option String) :
    (∀ pin, Pin.init path ty bx pg comp none nm = some pin →
        pin.net = NET_DISCONNECTED) ∧
    (∀ (n : Net) (pin : Pin),
        Pin.init path ty bx pg comp (some n) nm = some pin → pin.net = n) := by
  constructor
  · intro pin h
    exact Pin.init_net path ty bx pg comp none nm pin h
  · intro n pin h
    exact Pin.init_net path ty bx pg comp (some n) nm pin h

def netC9 : Net := ⟨some 3, some PinType.OPTICAL, none⟩

/-- Witness for `pin_net_defaults_to_disconnected` at concrete pins. -/
theorem pin_net_defaults_to_disconnected_witness :
    (Pin.init none none none none none none none
        = some ⟨none, none, 0, none, none, NET_DISCONNECTED, none, none⟩ ∧
      (⟨none, none, 0, none, none, NET_DISCONNECTED, none, none⟩ : Pin).net
        = NET_DISCONNECTED) ∧
    (Pin.init none none none none none (some netC9) none
        = some ⟨none, none, 0, none, none, netC9, none, none⟩ ∧
      (⟨none, none, 0, none, none, netC9, none, none⟩ : Pin).net = netC9) :=
  ⟨⟨rfl, (pin_net_defaults_to_disconnected none none none none none none).1
      ⟨none, none, 0, none, none, NET_DISCONNECTED, none, none⟩ rfl⟩,
   ⟨rfl, (pin_net_defaults_to_disconnected none none none none none none).2
      netC9 ⟨none, none, 0, none, none, netC9, none, none⟩ rfl⟩⟩

/-- C10: `Component.__init__` fails with the default `polygon=None`
(`polygon.bbox()` on `None`), and a successfully constructed component
stores the supplied polygon and derives its center from that polygon's
bounding box. -/
theorem component_requires_polygon (dbu : ℚ) (idx : Option Int)
    (comp inst : Option String) (tr : Option Trans) (lib : Option String)
    (par : Option String) (pins : List Pin) (epins nets : List Net)
    (cell : Option Cell) (bn : Option String) :
    Component.init dbu idx comp inst tr lib par pins epins nets none cell bn
      = none ∧
    ∀ (pg : Polygon) (c : Component),
      Component.init dbu idx comp inst tr lib par pins epins nets (some pg)
          cell bn = some c →
      c.polygon = some pg ∧ c.center = pg.bbox.center := by
  refine ⟨rfl, ?_⟩
  intro pg c h
  obtain rfl := Option.some.inj h
  exact ⟨rfl, rfl⟩

def pgC10 : Polygon := ⟨⟨0, 0, 6, 2⟩, ⟨3, 1⟩⟩

def compC10 : Component :=
  ⟨none, none, none, none, none, [], 0, none, some pgC10, pgC10.bbox.center,
   none, none, ((pgC10.bbox.center.x : ℚ) * 1, (pgC10.bbox.center.y : ℚ) * 1)⟩

/-- Witness for `component_requires_polygon` at a concrete polygon. -/
theorem component_requires_polygon_witness :
    Component.init 1 none none none none none none [] [] [] (some pgC10)
        none none = some compC10 ∧
    compC10.polygon = some pgC10 ∧ compC10.center = pgC10.bbox.center :=
  ⟨rfl,
   (component_requires_polygon 1 none none none none none none [] [] []
      none none).2 pgC10 compC10 rfl⟩

/-- C5: `npins` equals the length of the pin list at construction, and the
find-pins-then-assign workflow (`find_pins` returning the discovered list,
the caller attaching it) keeps `npins == N == len(pins)` for `N` discovered
pins. -/
theorem component_pin_count_invariant :
    (∀ (dbu : ℚ) (idx : Option Int) (comp inst : Option String)
        (tr : Option Trans) (lib par : Option String) (pins : List Pin)
        (epins nets : List Net) (pg : Option Polygon) (cell : Option Cell)
        (bn : Option String) (c : Component),
      Component.init dbu idx comp inst tr lib par pins epins nets pg cell bn
          = some c →
      c.npins = pins.length ∧ c.pins.length = pins.length) ∧
    (∀ (c : Component) (ps : List Pin), c.find_pins = some ps →
      (c.attachPins ps).npins = ps.length ∧
      (c.attachPins ps).pins.length = ps.length) := by
  constructor
  · intro dbu idx comp inst tr lib par pins epins nets pg cell bn c h
    rcases pg with _ | pg
    · exact Option.noConfusion h
    · obtain rfl := Option.some.inj h
      exact ⟨rfl, rfl⟩
  · intro c ps _
    exact ⟨rfl, rfl⟩

def cellC5 : Cell := ⟨[]⟩

def compC5 : Component :=
  ⟨none, none, none, none, none, [], 0, none, some pgC10, pgC10.bbox.center,
   some cellC5, none,
   ((pgC10.bbox.center.x : ℚ) * 1, (pgC10.bbox.center.y : ℚ) * 1)⟩

/-- Witness for `component_pin_count_invariant` at a concrete component. -/
theorem component_pin_count_invariant_witness :
    (Component.init 1 none none none none none none [] [] [] (some pgC10)
        (some cellC5) none = some compC5 ∧
      compC5.npins = ([] : List Pin).length ∧
      compC5.pins.length = ([] : List Pin).length) ∧
    (compC5.find_pins = some [] ∧
      (compC5.attachPins []).npins = ([] : List Pin).length ∧
      (compC5.attachPins []).pins.length = ([] : List Pin).length) :=
  ⟨⟨rfl, component_pin_count_invariant.1 1 none none none none none none []
      [] [] (some pgC10) (some cellC5) none compC5 rfl⟩,
   ⟨rfl, component_pin_count_invariant.2 compC5 [] rfl⟩⟩

/-- C4: `has_model` yields `false` — it does not fail — when the active
technology is unset, and likewise when the technology cannot be resolved
by name in the technology registry. -/
theorem has_model_false_when_tech_missing :
    (∀ (env : Env) (c : Component), env.activeTech = none →
        Component.has_model env c = some false) ∧
    (∀ (env : Env) (c : Component) (t : Tech), env.activeTech = some t →
        get_technology_by_name env t.technology_name = none →
        Component.has_model env c = some false) := by
  constructor
  · intro env c h
    simp [Component.has_model, get_technology, h]
  · intro env c t h1 h2
    simp [Component.has_model, get_technology, h1, h2]

def techC3 : Tech := ⟨"TechA", 1⟩

def envC4 : Env := ⟨none, [], []⟩

def envC4b : Env := ⟨some techC3, [], []⟩

def compC4 : Component :=
  ⟨none, some "comp1", none, none, some "OtherLib", [], 0, none, some pgC10,
   pgC10.bbox.center, none, none,
   ((pgC10.bbox.center.x : ℚ) * 1, (pgC10.bbox.center.y : ℚ) * 1)⟩

/-- Witness for `has_model_false_when_tech_missing` at concrete
environments. -/
theorem has_model_false_when_tech_missing_witness :
    (envC4.activeTech = none ∧
      Component.has_model envC4 compC4 = some false) ∧
    (envC4b.activeTech = some techC3 ∧
      get_technology_by_name envC4b techC3.technology_name = none ∧
      Component.has_model envC4b compC4 = some false) :=
  ⟨⟨rfl, has_model_false_when_tech_missing.1 envC4 compC4 rfl⟩,
   ⟨rfl, rfl,
    has_model_false_when_tech_missing.2 envC4b compC4 techC3 rfl rfl⟩⟩

def envC3 : Env := ⟨some techC3, [techC3], ["design kits::techa::comp1"]⟩

def pgC3 : Polygon := ⟨⟨0, 0, 2, 2⟩, ⟨1, 1⟩⟩

def compC3 : Component :=
  ⟨none, some "comp1", none, none, some "OtherLib", [], 0, none, some pgC3,
   pgC3.bbox.center, none, none,
   ((pgC3.bbox.center.x : ℚ) * 1, (pgC3.bbox.center.y : ℚ) * 1)⟩

/-- C3 counterexample: for a component whose `library` field ("OtherLib")
differs from the active technology name ("TechA"), `has_model` is `true`
while the key the claim describes, the lower-cased
`library::component_name`, is not in the registry: the code keys on
`"design kits::" + technology_name.lower() + "::" + component.lower()` and
never reads the `library` field. -/
theorem has_model_ignores_library_field :
    Component.init 1 none (some "comp1") none none (some "OtherLib") none []
        [] [] (some pgC3) none none = some compC3 ∧
    Component.has_model envC3 compC3 = some true ∧
    claimedModelKey compC3 ∉ envC3.INTC_ELEMENTS := by
  refine ⟨rfl, ?_, by decide⟩
  decide

/-- C3 amended: `has_model` returns exactly the membership, in the
compact-model registry, of the key `"design kits::" + technology_name +
"::" + component_name` (lower-cased), where the technology name comes from
the resolved active technology, not from the component's `library` field;
as a function of its inputs it has no side effects. -/
theorem has_model_keyed_by_technology_name
    (env : Env) (c : Component) (t t2 : Tech) (name : String)
    (h1 : env.activeTech = some t)
    (h2 : get_technology_by_name env t.technology_name = some t2)
    (h3 : c.component = some name) :
    Component.has_model env c
      = some (env.INTC_ELEMENTS.contains
                (intcModelKey t2.technology_name name)) := by
  simp [Component.has_model, get_technology, h1, h2, h3]

/-- Witness for `has_model_keyed_by_technology_name` at a concrete
environment and component. -/
theorem has_model_keyed_by_technology_name_witness :
    envC3.activeTech = some techC3 ∧
    get_technology_by_name envC3 techC3.technology_name = some techC3 ∧
    compC3.component = some "comp1" ∧
    Component.has_model envC3 compC3
      = some (envC3.INTC_ELEMENTS.contains
                (intcModelKey techC3.technology_name "comp1")) :=
  ⟨rfl, by decide, rfl,
   has_model_keyed_by_technology_name envC3 compC3 techC3 techC3 "comp1" rfl
     (by decide) rfl⟩

/-- The pin-path extension of `get_polygons` in closed form: on a path
whose first two points differ, the second point is displaced by exactly
the truncated length-1000 vector pointing from the second point away from
the first (`cos`/`sin` of the `atan2` direction reduce to the normalized
vector components). -/
theorem extendPinPath_stub (q0 q1 : Point) (rest : List Point) (w : Int)
    (h : q0 ≠ q1) :
    extendPinPath ⟨q0 :: q1 :: rest, w⟩
      = some ⟨q0 :: (q1 + stubVector q0 q1) :: rest, w⟩ := by
  have hx' : (q0 - q1).x = q0.x - q1.x := rfl
  have hy' : (q0 - q1).y = q0.y - q1.y := rfl
  have hu : ¬((q0 - q1).x = 0 ∧ (q0 - q1).y = 0) := by
    rintro ⟨hx, hy⟩
    rw [hx'] at hx
    rw [hy'] at hy
    apply h
    obtain ⟨x0, y0⟩ := q0
    obtain ⟨x1, y1⟩ := q1
    simp only at hx hy
    have h1 : x0 = x1 := by omega
    have h2 : y0 = y1 := by omega
    rw [h1, h2]
  have eA : ((q0 - q1).x : ℝ) = -(((q1.x - q0.x : ℤ) : ℝ)) := by
    rw [hx']
    push_cast
    ring
  have eB : ((q0 - q1).y : ℝ) = -(((q1.y - q0.y : ℤ) : ℝ)) := by
    rw [hy']
    push_cast
    ring
  have hcos := cos_angle_vector (q0 - q1) hu
  have hsin := sin_angle_vector (q0 - q1)
  rw [eA, eB] at hcos hsin
  rw [show (-(((q1.x - q0.x : ℤ) : ℝ))) ^ 2 + (-(((q1.y - q0.y : ℤ) : ℝ))) ^ 2
      = ((q1.x - q0.x : ℤ) : ℝ) ^ 2 + ((q1.y - q0.y : ℤ) : ℝ) ^ 2
    from by ring] at hcos hsin
  have hDx : truncz
        (Real.cos (angle_vector (q0 - q1) * Real.pi / 180) * 1000)
      = - truncz (1000 * ((q1.x - q0.x : ℤ) : ℝ)
          / Real.sqrt (((q1.x - q0.x : ℤ) : ℝ) ^ 2
              + ((q1.y - q0.y : ℤ) : ℝ) ^ 2)) := by
    rw [hcos, ← truncz_neg]
    congr 1
    ring
  have hDy : truncz
        (Real.sin (angle_vector (q0 - q1) * Real.pi / 180) * 1000)
      = - truncz (1000 * ((q1.y - q0.y : ℤ) : ℝ)
          / Real.sqrt (((q1.x - q0.x : ℤ) : ℝ) ^ 2
              + ((q1.y - q0.y : ℤ) : ℝ) ^ 2)) := by
    rw [hsin, ← truncz_neg]
    congr 1
    ring
  have hpt : ∀ (p : Point) (a b : ℤ), p - (⟨-a, -b⟩ : Point) = p + ⟨a, b⟩ := by
    intro p a b
    rw [Point.sub_def, Point.add_def]
    simp only [Point.mk.injEq]
    omega
  simp only [extendPinPath, stubVector]
  rw [hDx, hDy, hpt]

/-- C8: in `Component.get_polygons`, every pin-indicator path shape found
on the PinRec layer contributes, to the shapes inserted into the result
region, its transformed path with the second point displaced by the
integer-rounded vector of length 1000 database units (1 micron) along the
direction from the second point away from the first — the fixed outward
stub — before conversion to a polygon and merging. -/
theorem get_polygons_extends_pin_paths
    (shapes : List (Shape × Trans)) (out : List Path)
    (hout : get_polygons_pin_paths shapes = some out)
    (p : Path) (t : Trans) (hp : (Shape.path p, t) ∈ shapes)
    (q0 q1 : Point) (rest : List Point) (w : Int)
    (hq : p.transformed t = ⟨q0 :: q1 :: rest, w⟩) (hne : q0 ≠ q1) :
    (⟨q0 :: (q1 + stubVector q0 q1) :: rest, w⟩ : Path) ∈ out := by
  revert hp
  revert hout
  induction shapes generalizing out with
  | nil =>
    intro hout hp
    cases hp
  | cons s ss ih =>
    intro hout hp
    cases hp with
    | head =>
      have hE : extendPinPath (p.transformed t)
          = some ⟨q0 :: (q1 + stubVector q0 q1) :: rest, w⟩ := by
        rw [hq]
        exact extendPinPath_stub q0 q1 rest w hne
      have hred : get_polygons_pin_paths ((Shape.path p, t) :: ss)
          = match get_polygons_pin_paths ss with
            | none => none
            | some out' =>
              some ((⟨q0 :: (q1 + stubVector q0 q1) :: rest, w⟩ : Path)
                :: out') := by
        simp only [get_polygons_pin_paths, hE]
      rw [hred] at hout
      cases hss : get_polygons_pin_paths ss with
      | none =>
        rw [hss] at hout
        exact Option.noConfusion hout
      | some out' =>
        rw [hss] at hout
        obtain rfl := Option.some.inj hout
        exact List.mem_cons_self _ _
    | tail b hmem =>
      obtain ⟨sh, st⟩ := s
      cases sh with
      | path p2 =>
        simp only [get_polygons_pin_paths] at hout
        cases hE2 : extendPinPath (p2.transformed st) with
        | none =>
          rw [hE2] at hout
          exact Option.noConfusion hout
        | some p2' =>
          rw [hE2] at hout
          cases hss : get_polygons_pin_paths ss with
          | none =>
            rw [hss] at hout
            exact Option.noConfusion hout
          | some out' =>
            rw [hss] at hout
            obtain rfl := Option.some.inj hout
            exact List.mem_cons_of_mem _ (ih out' hss hmem)
      | polygon p2 => exact ih out hout hmem
      | box b2 => exact ih out hout hmem
      | text => exact ih out hout hmem

def pathC8 : Path := ⟨[⟨0, 0⟩, ⟨1000, 0⟩], 500⟩

noncomputable def outC8 : List Path :=
  [⟨[⟨0, 0⟩, (⟨1000, 0⟩ : Point) + stubVector ⟨0, 0⟩ ⟨1000, 0⟩], 500⟩]

/-- Witness for `get_polygons_extends_pin_paths` at a concrete PinRec
shape list. -/
theorem get_polygons_extends_pin_paths_witness :
    get_polygons_pin_paths [(Shape.path pathC8, Trans.identity)]
      = some outC8 ∧
    (⟨[⟨0, 0⟩, (⟨1000, 0⟩ : Point) + stubVector ⟨0, 0⟩ ⟨1000, 0⟩], 500⟩ :
        Path) ∈ outC8 := by
  have htr : pathC8.transformed Trans.identity
      = ⟨[⟨0, 0⟩, ⟨1000, 0⟩], 500⟩ := by
    have happ0 : Trans.identity.apply ⟨0, 0⟩ = (⟨0, 0⟩ : Point) := by decide
    have happ1 : Trans.identity.apply ⟨1000, 0⟩ = (⟨1000, 0⟩ : Point) := by
      decide
    simp [pathC8, Path.transformed, happ0, happ1]
  have hne : (⟨0, 0⟩ : Point) ≠ ⟨1000, 0⟩ := by decide
  have hE : extendPinPath (pathC8.transformed Trans.identity)
      = some ⟨[⟨0, 0⟩, (⟨1000, 0⟩ : Point) + stubVector ⟨0, 0⟩ ⟨1000, 0⟩],
          500⟩ := by
    rw [htr]
    exact extendPinPath_stub ⟨0, 0⟩ ⟨1000, 0⟩ [] 500 hne
  have hout : get_polygons_pin_paths [(Shape.path pathC8, Trans.identity)]
      = some outC8 := by
    simp only [get_polygons_pin_paths, hE, outC8]
  exact ⟨hout,
    get_polygons_extends_pin_paths [(Shape.path pathC8, Trans.identity)]
      outC8 hout pathC8 Trans.identity (List.mem_singleton.mpr rfl) ⟨0, 0⟩
      ⟨1000, 0⟩ [] 500 htr hne⟩

end SiEPIC
